import Mathlib

/-!
# Verification of the FastMath linear-algebra library

Shallow embedding of the FastMath C++ library (`inc/FastMath/*.hpp`) and
proofs about it.  Exact scalar arithmetic is modelled by `ℚ` for the purely
algebraic operations and by `ℝ` for the operations that use `sqrt`/trig
(`length`, `normalize`, quaternion `exp`, `lerp`, `slerp`).  A C++ debug
`assert` is modelled by returning `Option` : `none` means the assertion
fired.  Fixed-size matrices `Matrix<T,N,M>` are modelled as Mathlib
function matrices `Matrix (Fin N) (Fin M) ℚ`; the row-major flat storage
`m[i*M+j]` corresponds to the entry at row `i`, column `j`.
-/

namespace FastMath

/-! ## Exact (ℚ) embedding of `Matrix.hpp`

The recursive determinant / adjugate / inverse family
(`Matrix_Determinant`, `Matrix_Inverse`) and the arithmetic operators. -/

/-- `Matrix_Determinant<T,N,N>::c` / `Matrix_Inverse<T,N,N>::c`
(Matrix.hpp:850-854, 928-932): the cofactor sign
`cofactor[(i+j)%2]` where `cofactor[] = { 1, -1 }`. -/
def cofSign (i j : ℕ) : ℚ :=
  if (i + j) % 2 = 0 then 1 else -1

/-- The submatrix constructor `Matrix(const Matrix<U,N+1,M+1>& copy, i, j)`
(Matrix.hpp:559-570): it keeps every entry of `copy` whose row is not `i`
and whose column is not `j`, writing them consecutively in row-major
order, i.e. it deletes row `i` and column `j` preserving the order of the
remaining rows and columns — entry `(r, c)` of the result is entry
`(i.succAbove r, j.succAbove c)` of `copy`. -/
def subm {n m : ℕ} (A : Matrix (Fin (n + 1)) (Fin (m + 1)) ℚ)
    (i : Fin (n + 1)) (j : Fin (m + 1)) : Matrix (Fin n) (Fin m) ℚ :=
  Matrix.of fun r c => A (i.succAbove r) (j.succAbove c)

/-- `Matrix_Determinant<T,N,N>::determinant` (Matrix.hpp:819-864):
the 1×1 base case returns the single element `m.m[0]`; the recursive
case is Laplace expansion along row 0,
`det = Σ_j m.m[j] * c(0,j) * determinant(minor(m,0,j))`. -/
def detC : {n : ℕ} → Matrix (Fin (n + 1)) (Fin (n + 1)) ℚ → ℚ
  | 0, A => A 0 0
  | _ + 1, A => ∑ j, A 0 j * cofSign 0 (j : ℕ) * detC (subm A 0 j)

/-- `Matrix_Inverse<T,N,N>::adjugate` (Matrix.hpp:939-948), `N ≥ 2`:
`res.m[j*N+i] = c(i,j) * determinant(minor(m,i,j))`, i.e. the entry of
the result at row `r`, column `q` is `c(q,r) * det(minor(m,q,r))`. -/
def adjC {n : ℕ} (A : Matrix (Fin (n + 2)) (Fin (n + 2)) ℚ) :
    Matrix (Fin (n + 2)) (Fin (n + 2)) ℚ :=
  Matrix.of fun r q => cofSign (q : ℕ) (r : ℕ) * detC (subm A q r)

/-- `Matrix<T,N,M>::operator/(T s)` (Matrix.hpp:684-698): when `s != 0`
every element is multiplied by `1/s`; when `s == 0` the loop is skipped
and the default-constructed (all-zero, MatrixBase.hpp:93-96) result is
returned.  There is no assertion. -/
def matScalarDiv {n m : ℕ} (A : Matrix (Fin n) (Fin m) ℚ) (s : ℚ) :
    Matrix (Fin n) (Fin m) ℚ :=
  if s ≠ 0 then Matrix.of fun i j => A i j * s⁻¹ else 0

/-- `Matrix<T,N,M>::operator/=(T s)` (Matrix.hpp:700-712): when `s != 0`
every element is multiplied in place by `1/s`; when `s == 0` the matrix
is left unchanged.  There is no assertion. -/
def matScalarDivAssign {n m : ℕ} (A : Matrix (Fin n) (Fin m) ℚ) (s : ℚ) :
    Matrix (Fin n) (Fin m) ℚ :=
  if s ≠ 0 then Matrix.of fun i j => A i j * s⁻¹ else A

/-- The determinant as computed inside `Matrix_Inverse<T,N,N>::inverse`
(Matrix.hpp:956-959): the first row of `m` dotted with the first column
of the adjugate, `det = Σ_j m.m[j] * adj.m[j*N]`. -/
def detViaAdj {n : ℕ} (A : Matrix (Fin (n + 2)) (Fin (n + 2)) ℚ) : ℚ :=
  ∑ j, A 0 j * adjC A j 0

/-- `Matrix_Inverse<T,N,N>::inverse` (Matrix.hpp:950-968), `N ≥ 2`:
compute the adjugate, compute the determinant from the first row of `m`
and the first column of the adjugate, return `adj / det` when the
determinant is nonzero and hit `assert(("Matrix is singular.", false))`
(modelled as `none`) when it is exactly zero. -/
def invC {n : ℕ} (A : Matrix (Fin (n + 2)) (Fin (n + 2)) ℚ) :
    Option (Matrix (Fin (n + 2)) (Fin (n + 2)) ℚ) :=
  if detViaAdj A ≠ 0 then some (matScalarDiv (adjC A) (detViaAdj A)) else none

/-- `Matrix<T,N,M>::operator*(const Matrix<T,M,P>&)` (Matrix.hpp:726-738)
at a square instantiation `N = M = P = n`, where the loop bounds
`i < N`, `j < M`, `k < P` all equal `n` and the body
`res.m[i*P+j] += m[i*M+k] * rhs.m[k*P+j]` accumulates
`res i j = Σ_k A i k * B k j` (the flat index `i*n+j` is the row-major
position of row `i`, column `j`).  The general non-square instantiation
is modelled separately by `mulCodeF` below. -/
def mulSq {n : ℕ} (A B : Matrix (Fin n) (Fin n) ℚ) : Matrix (Fin n) (Fin n) ℚ :=
  Matrix.of fun i j => ∑ k, A i k * B k j

/-- `Matrix<T,N,M>::diagonal(U x)` (Matrix.hpp:452-462) at a square size:
the default-constructed all-zero matrix with `x` written at each diagonal
position `res.m[i*M+i]`, `i < rank = n`.  `Matrix::IDENTITY` is
`diagonal(1)` (Matrix.hpp:464-465). -/
def diagC (n : ℕ) (x : ℚ) : Matrix (Fin n) (Fin n) ℚ :=
  Matrix.of fun i j => if i = j then x else 0

/-! ## Flat-storage embedding of the general matrix-matrix product

`Matrix<T,N,M>::operator*(const Matrix<T,M,P>&)` (Matrix.hpp:726-738)
works on the flat row-major arrays `m[N*M]`, `rhs.m[M*P]`, `res.m[N*P]`.
To capture its exact loop structure — including any out-of-bounds access,
which is undefined behaviour in C++ — the flat arrays are modelled as
lists and every access is bounds-checked: `none` means the C++ code read
or wrote outside an array.  The element type is `ℤ`, the exact model of
the library's integer instantiations (`Matrix2i` etc., Matrix.hpp:369)
at values far from overflow. -/

/-- Bounds-checked store into a flat array: `none` models an
out-of-bounds write (undefined behaviour in the C++). -/
def setF (l : List ℤ) (i : ℕ) (v : ℤ) : Option (List ℤ) :=
  if i < l.length then some (l.set i v) else none

/-- One execution of the loop body
`res.m[i*P+j] += m[i*M+k] * rhs.m[k*P+j]` (Matrix.hpp:735). -/
def mulBody (M P : ℕ) (A B : List ℤ) (i j k : ℕ) (res : List ℤ) :
    Option (List ℤ) := do
  let a ← A.get? (i * M + k)
  let b ← B.get? (k * P + j)
  let r ← res.get? (i * P + j)
  setF res (i * P + j) (r + a * b)

/-- `Matrix<T,N,M>::operator*(const Matrix<T,M,P>&)` (Matrix.hpp:726-738),
exactly as written: `res` is value-initialised to `N*P` zeros
(`Matrix<T, N, P> res {}`), then
`for (i = 0; i < N; ++i) for (j = 0; j < M; ++j) for (k = 0; k < P; ++k)
res.m[i*P+j] += m[i*M+k] * rhs.m[k*P+j]`.
Note the middle loop runs to `M` and the inner loop to `P`. -/
def mulCodeF (N M P : ℕ) (A B : List ℤ) : Option (List ℤ) :=
  (List.range N).foldlM
    (fun res i =>
      (List.range M).foldlM
        (fun res j =>
          (List.range P).foldlM (fun res k => mulBody M P A B i j k res) res)
        res)
    (List.replicate (N * P) 0)

/-- Modelled from the spec (§4.2): the matrix-matrix product "where an
N×M matrix times an M×P matrix yields N×P, defined generically as the
triple nested sum `Σ_k A[i][k]*B[k][j]`" with `k` ranging over the inner
dimension `M`, laid out row-major in a flat list of length `N*P`.  This
is the specification-side definition that `mulCodeF` is compared
against. -/
def mulSpecF (N M P : ℕ) (A B : List ℤ) : List ℤ :=
  (List.range (N * P)).map fun idx =>
    ((List.range M).map fun k =>
        A.getD (idx / P * M + k) 0 * B.getD (k * P + idx % P) 0).sum

/-! ## Exact (ℚ) embedding of `Vector.hpp` scalar division and
mixed-size assignment / construction -/

/-- `Vector<T,N>::operator/(U s)` (Vector.hpp:726-738):
`assert(s != U(0))` (modelled as `none`), then each component is divided
by `s`. -/
def vecScalarDiv {n : ℕ} (v : Fin n → ℚ) (s : ℚ) : Option (Fin n → ℚ) :=
  if s = 0 then none else some fun i => v i / s

/-- `Vector<T,N>::operator/=(U s)` (Vector.hpp:740-750):
`assert(s != U(0))` (modelled as `none`), then each component is divided
in place by `s`. -/
def vecScalarDivAssign {n : ℕ} (v : Fin n → ℚ) (s : ℚ) : Option (Fin n → ℚ) :=
  if s = 0 then none else some fun i => v i / s

/-- `Vector<T,N>::operator=(const Vector<U,M>&)` (Vector.hpp:614-624):
the first `min(N,M)` components are copied from `rhs`; the remaining
components of the target are not touched. -/
def vecAssign {N M : ℕ} (v : Fin N → ℚ) (u : Fin M → ℚ) : Fin N → ℚ :=
  fun i =>
    if h : (i : ℕ) < min N M then u ⟨i, lt_of_lt_of_le h (Nat.min_le_right N M)⟩
    else v i

/-- `Vector<T,N>::Vector(const Vector<U,M>& copy, const Args&... args)`
(Vector.hpp:521-533) with no extra arguments: the components start
zero-initialised (`vec {}` in the `VectorBase` default constructor,
VectorBase.hpp), the first `min(N,M)` are copied from `copy`, and the
argument-unfolding fold writes nothing. -/
def vecFromSmaller (N : ℕ) {M : ℕ} (u : Fin M → ℚ) : Fin N → ℚ :=
  fun i =>
    if h : (i : ℕ) < min N M then u ⟨i, lt_of_lt_of_le h (Nat.min_le_right N M)⟩
    else 0

/-! ## Exact (ℚ) embedding of `Quaternion.hpp` (algebraic part) and
`Transform.hpp` -/

/-- A 3-component vector `Vector<T,3>` with exact scalars. -/
structure V3 where
  x : ℚ
  y : ℚ
  z : ℚ
deriving DecidableEq

/-- A quaternion `Quaternion<T>` `(w, x, y, z)` with exact scalars. -/
structure QuatQ where
  w : ℚ
  x : ℚ
  y : ℚ
  z : ℚ
deriving DecidableEq

/-- `Quaternion<T>::IDENTITY` `{1, 0, 0, 0}` (Quaternion.hpp:292). -/
def idQuatQ : QuatQ := ⟨1, 0, 0, 0⟩

/-- `Quaternion<T>::operator/(U s)` (Quaternion.hpp:750-759):
`assert(s != U(0))` (modelled as `none`), then every component is
multiplied by `invS = 1/s`. -/
def quatScalarDiv (q : QuatQ) (s : ℚ) : Option QuatQ :=
  if s = 0 then none
  else some ⟨q.w * (1 / s), q.x * (1 / s), q.y * (1 / s), q.z * (1 / s)⟩

/-- `Quaternion<T>::operator/=(U s)` (Quaternion.hpp:666-680):
`assert(s != U(0))` (modelled as `none`), then every component is
multiplied in place by `invS = 1/s`. -/
def quatScalarDivAssign (q : QuatQ) (s : ℚ) : Option QuatQ :=
  if s = 0 then none
  else some ⟨q.w * (1 / s), q.x * (1 / s), q.y * (1 / s), q.z * (1 / s)⟩

/-- `Vector<T,N>::operator-()` (Vector.hpp:632-642) at `N = 3`:
component-wise negation (`T` signed). -/
def negV3 (v : V3) : V3 := ⟨-v.x, -v.y, -v.z⟩

/-- `translate(const Vector<T,3>&)` (Matrix.hpp:989-998): the 4×4
translation matrix with `t` in the last column. -/
def translateM (t : V3) : Matrix (Fin 4) (Fin 4) ℚ :=
  !![1, 0, 0, t.x;
     0, 1, 0, t.y;
     0, 0, 1, t.z;
     0, 0, 0, 1]

/-- `scale(const Vector<T,3>&)` (Matrix.hpp:1012-1021): the 4×4 scale
matrix with `s` on the diagonal. -/
def scaleM (s : V3) : Matrix (Fin 4) (Fin 4) ℚ :=
  !![s.x, 0, 0, 0;
     0, s.y, 0, 0;
     0, 0, s.z, 0;
     0, 0, 0, 1]

/-- `toMat4(const Quaternion<T>&)` (Quaternion.hpp:548-567): the 4×4
rotation matrix of a quaternion. -/
def toMat4Q (q : QuatQ) : Matrix (Fin 4) (Fin 4) ℚ :=
  !![1 - 2 * (q.y * q.y + q.z * q.z), 2 * (q.x * q.y - q.w * q.z), 2 * (q.x * q.z + q.w * q.y), 0;
     2 * (q.x * q.y + q.w * q.z), 1 - 2 * (q.x * q.x + q.z * q.z), 2 * (q.y * q.z - q.w * q.x), 0;
     2 * (q.x * q.z - q.w * q.y), 2 * (q.y * q.z + q.w * q.x), 1 - 2 * (q.x * q.x + q.y * q.y), 0;
     0, 0, 0, 1]

/-- The state of a `Transform<T>` (Transform.hpp:7-45): the four logical
fields, the cached composite matrix, and the dirty flag. -/
structure TransformQ where
  scale : V3
  translate : V3
  rotationOrigin : V3
  rotation : QuatQ
  matrix : Matrix (Fin 4) (Fin 4) ℚ
  isDirty : Bool

/-- The `Transform<T>` constructor (Transform.hpp:47-55): stores the four
arguments, initialises the cache to `Matrix<T,4>::IDENTITY` and the
dirty flag to `false` — for every argument value. -/
def mkTransform (s t ro : V3) (q : QuatQ) : TransformQ :=
  ⟨s, t, ro, q, diagC 4 1, false⟩

/-- `Transform<T>::setScale` (Transform.hpp:63-68). -/
def setScale (tr : TransformQ) (s : V3) : TransformQ :=
  { tr with scale := s, isDirty := true }

/-- `Transform<T>::setTranslate` (Transform.hpp:76-81). -/
def setTranslate (tr : TransformQ) (t : V3) : TransformQ :=
  { tr with translate := t, isDirty := true }

/-- `Transform<T>::setRotationOrigin` (Transform.hpp:89-94). -/
def setRotationOrigin (tr : TransformQ) (ro : V3) : TransformQ :=
  { tr with rotationOrigin := ro, isDirty := true }

/-- `Transform<T>::setRotation` (Transform.hpp:102-107). -/
def setRotation (tr : TransformQ) (q : QuatQ) : TransformQ :=
  { tr with rotation := q, isDirty := true }

/-- The composite matrix computed by `Transform<T>::rebuild`
(Transform.hpp:118-129): `translate(translate)` then `*=` with
`translate(rotationOrigin)`, `toMat4(rotation)`,
`translate(-rotationOrigin)` and `scale(scale)` in turn
(`operator*=` forwards to the square `operator*`, Matrix.hpp:740-746). -/
def compositeM (tr : TransformQ) : Matrix (Fin 4) (Fin 4) ℚ :=
  mulSq
    (mulSq
      (mulSq (mulSq (translateM tr.translate) (translateM tr.rotationOrigin))
        (toMat4Q tr.rotation))
      (translateM (negV3 tr.rotationOrigin)))
    (scaleM tr.scale)

/-- `Transform<T>::rebuild` (Transform.hpp:118-129): recompute the cache
and clear the dirty flag. -/
def rebuildT (tr : TransformQ) : TransformQ :=
  { tr with matrix := compositeM tr, isDirty := false }

/-- `Transform<T>::getMatrix` (Transform.hpp:109-116): rebuild first when
the dirty flag is set, then return the cached matrix.  The returned pair
is (returned matrix, state after the call — `matrix` and `isDirty` are
`mutable`). -/
def getMatrixT (tr : TransformQ) : Matrix (Fin 4) (Fin 4) ℚ × TransformQ :=
  if tr.isDirty then ((rebuildT tr).matrix, rebuildT tr) else (tr.matrix, tr)

/-! ## Real-valued embedding of the `sqrt`/trig operations

`length`, `normalize`, quaternion `exp`, `lerp` and `slerp` use
`std::sqrt`/`std::sin`/`std::cos`/`std::acos`; exact real arithmetic
models the floating-point computation.  `EPSILON<T>` is
`std::numeric_limits<T>::epsilon()` (Common.hpp:42), instantiated for
`float`, the library's primary scalar type. -/

/-- `EPSILON<float> = std::numeric_limits<float>::epsilon() = 2⁻²³`
(Common.hpp:42). -/
noncomputable def EPS : ℝ := 1 / 2 ^ 23

/-- `Vector_Dot<T,N>::dot` (Vector.hpp:816-828): the generic loop
`res += a.vec[i] * b.vec[i]`. -/
def dotR {n : ℕ} (a b : Fin n → ℝ) : ℝ := ∑ i, a i * b i

/-- `Vector_Length<T,N>::length` (Vector.hpp:886-898):
`sqrt(dot(v,v))`. -/
noncomputable def lengthR {n : ℕ} (v : Fin n → ℝ) : ℝ :=
  Real.sqrt (dotR v v)

/-- `Vector<T,N>::operator/(U s)` (Vector.hpp:726-738) over ℝ:
`assert(s != U(0))` (modelled as `none`), then each component is divided
by `s`. -/
noncomputable def vecDivR {n : ℕ} (v : Fin n → ℝ) (s : ℝ) : Option (Fin n → ℝ) :=
  if s = 0 then none else some fun i => v i / s

/-- `Vector_Normalize<T,N>::normalize` (Vector.hpp:917-936):
`l = length(v); if (l > 0) return v / l; return v`.  The zero-length
fallback performs no division and no assertion. -/
noncomputable def normalizeV {n : ℕ} (v : Fin n → ℝ) : Option (Fin n → ℝ) :=
  if 0 < lengthR v then vecDivR v (lengthR v) else some v

/-- A quaternion `Quaternion<T>` `(w, x, y, z)` with real scalars. -/
structure QuatR where
  w : ℝ
  x : ℝ
  y : ℝ
  z : ℝ

/-- `Quaternion<T>::operator+(const Quaternion<U>&)`
(Quaternion.hpp:682-692): component-wise addition. -/
def addQ (a b : QuatR) : QuatR := ⟨a.w + b.w, a.x + b.x, a.y + b.y, a.z + b.z⟩

/-- `Quaternion<T>::operator*(U s)` (Quaternion.hpp:738-748): every
component multiplied by `s`. -/
def smulQ (a : QuatR) (s : ℝ) : QuatR := ⟨a.w * s, a.x * s, a.y * s, a.z * s⟩

/-- `Quaternion<T>::operator-()` (Quaternion.hpp:597-601):
`{ w, -x, -y, -z }` — the source's unary minus negates only the vector
part, leaving `w` unchanged. -/
def negQ (q : QuatR) : QuatR := ⟨q.w, -q.x, -q.y, -q.z⟩

/-- `dot(const Quaternion<T>&, const Quaternion<T>&)`
(Quaternion.hpp:783-787). -/
def dotQ (a b : QuatR) : ℝ := a.w * b.w + a.x * b.x + a.y * b.y + a.z * b.z

/-- `Quaternion<T>::operator/(U s)` (Quaternion.hpp:750-759) over ℝ:
`assert(s != U(0))` (modelled as `none`), then `*this * (1/s)`. -/
noncomputable def quatDivR (q : QuatR) (s : ℝ) : Option QuatR :=
  if s = 0 then none else some (smulQ q (1 / s))

/-- The interpolated value `q0 * (1 - t) + q1 * t` of `lerp`
(Quaternion.hpp:1126). -/
def lerpVal (q0 q1 : QuatR) (t : ℝ) : QuatR :=
  addQ (smulQ q0 (1 - t)) (smulQ q1 t)

/-- `lerp(q0, q1, t)` (Quaternion.hpp:1120-1127): `assert(t >= T(0))`
then `assert(t <= T(1))` (each modelled as `none`), then
`q0 * (1 - t) + q1 * t`. -/
noncomputable def lerpQ (q0 q1 : QuatR) (t : ℝ) : Option QuatR :=
  if 0 ≤ t then if t ≤ 1 then some (lerpVal q0 q1 t) else none else none

/-- `slerp(q0, q1, t)` (Quaternion.hpp:1158-1182): `c = dot(q0, q1)`;
when `c > 1 - EPSILON` delegate to `lerp(q0, q1, t)`; otherwise negate
`q1` (with the source's unary minus `negQ`) and `c` when `c < 0`, set
`a = acos(c)`, and return
`(q0 * sin((1-t)*a) + q * sin(t*a)) / sin(a)` — the final `operator/`
asserts its divisor is nonzero. -/
noncomputable def slerpQ (q0 q1 : QuatR) (t : ℝ) : Option QuatR :=
  let c := dotQ q0 q1
  if 1 - EPS < c then lerpQ q0 q1 t
  else
    let q := if c < 0 then negQ q1 else q1
    let c2 := if c < 0 then -c else c
    let a := Real.arccos c2
    quatDivR (addQ (smulQ q0 (Real.sin ((1 - t) * a))) (smulQ q (Real.sin (t * a))))
      (Real.sin a)

/-- `exp(const Quaternion<T>&)` (Quaternion.hpp:1017-1028):
`a = length({x, y, z})`; when `a < EPSILON` return the identity
quaternion; otherwise normalize the vector part by `a` (the divisor is
nonzero because `a ≥ EPSILON > 0`) and return `{cos(a), sin(a) * v}`. -/
noncomputable def expQ (q : QuatR) : QuatR :=
  let a := lengthR ![q.x, q.y, q.z]
  if a < EPS then ⟨1, 0, 0, 0⟩
  else ⟨Real.cos a, Real.sin a * (q.x / a), Real.sin a * (q.y / a),
        Real.sin a * (q.z / a)⟩

/-! ## Bridge lemmas: the embedded ℚ matrix operations against Mathlib -/

/-- The cofactor sign table is `(-1)^(i+j)`. -/
lemma cofSign_eq_pow (i j : ℕ) : cofSign i j = (-1 : ℚ) ^ (i + j) := by
  rcases Nat.even_or_odd (i + j) with h | h
  · simp [cofSign, Nat.even_iff.mp h, h.neg_one_pow]
  · simp [cofSign, Nat.odd_iff.mp h, h.neg_one_pow]

/-- The submatrix constructor is Mathlib's `Matrix.submatrix` along the
order-preserving hole-skipping maps. -/
lemma subm_eq_submatrix {n m : ℕ} (A : Matrix (Fin (n + 1)) (Fin (m + 1)) ℚ)
    (i : Fin (n + 1)) (j : Fin (m + 1)) :
    subm A i j = A.submatrix i.succAbove j.succAbove := rfl

/-- Removing row 0 skips via `Fin.succ`. -/
lemma subm_zero {n m : ℕ} (A : Matrix (Fin (n + 1)) (Fin (m + 1)) ℚ)
    (j : Fin (m + 1)) : subm A 0 j = A.submatrix Fin.succ j.succAbove := by
  ext r c
  simp [subm, Matrix.submatrix, Fin.zero_succAbove]

/-- The recursive code determinant is the mathematical determinant. -/
lemma detC_eq_det : ∀ {n : ℕ} (A : Matrix (Fin (n + 1)) (Fin (n + 1)) ℚ),
    detC A = A.det
  | 0, A => by simp [detC, Matrix.det_fin_one]
  | n + 1, A => by
    rw [detC, Matrix.det_succ_row_zero]
    refine Finset.sum_congr rfl fun j _ => ?_
    rw [subm_zero, detC_eq_det, cofSign_eq_pow]
    ring

/-- The code adjugate is the mathematical adjugate. -/
lemma adjC_eq_adjugate {n : ℕ} (A : Matrix (Fin (n + 2)) (Fin (n + 2)) ℚ) :
    adjC A = Matrix.adjugate A := by
  ext r q
  rw [Matrix.adjugate_fin_succ_eq_det_submatrix]
  simp only [adjC, Matrix.of_apply]
  rw [detC_eq_det, cofSign_eq_pow, subm_eq_submatrix]

/-- The determinant computed inside `inverse` (first row of `m` against
the first column of the adjugate) equals the recursive determinant. -/
lemma detViaAdj_eq_detC {n : ℕ} (A : Matrix (Fin (n + 2)) (Fin (n + 2)) ℚ) :
    detViaAdj A = detC A := by
  show _ = ∑ j, A 0 j * cofSign 0 (j : ℕ) * detC (subm A 0 j)
  refine Finset.sum_congr rfl fun j _ => ?_
  simp only [detViaAdj, adjC, Matrix.of_apply, Fin.val_zero]
  ring

/-- The square instantiation of the code product is Mathlib matrix
multiplication. -/
lemma mulSq_eq_mul {n : ℕ} (A B : Matrix (Fin n) (Fin n) ℚ) :
    mulSq A B = A * B := by
  ext i j
  simp [mulSq, Matrix.mul_apply]

/-- `diagonal(1)` (the code `IDENTITY`) is the identity matrix. -/
lemma diagC_one {n : ℕ} : diagC n 1 = (1 : Matrix (Fin n) (Fin n) ℚ) := by
  ext i j
  simp [diagC, Matrix.one_apply]

/-- Shared concrete computation: the adjugate of `{{2,3},{2,2}}`. -/
lemma adjC_ex : adjC !![(2 : ℚ), 3; 2, 2] = !![2, -3; -2, 2] := by
  ext r q
  fin_cases r <;> fin_cases q <;>
    norm_num [adjC, detC, subm, cofSign, Fin.succAbove]

/-- Shared concrete computation: the `inverse`-style determinant of
`{{2,3},{2,2}}`. -/
lemma detViaAdj_ex : detViaAdj !![(2 : ℚ), 3; 2, 2] = -2 := by
  show (∑ j, _) = _
  rw [Fin.sum_univ_two]
  norm_num [adjC_ex]

/-- Shared concrete computation: `inverse({{2,3},{2,2}})`. -/
lemma invC_ex : invC !![(2 : ℚ), 3; 2, 2] = some !![-1, 3 / 2; 1, -1] := by
  rw [invC, if_pos (by rw [detViaAdj_ex]; norm_num)]
  rw [adjC_ex, detViaAdj_ex]
  congr 1
  rw [matScalarDiv, if_pos (by norm_num)]
  ext i j
  fin_cases i <;> fin_cases j <;> norm_num

/-! ## Claim theorems -/

/-- C2: the claim says `A * B` of an N×M by an M×P matrix has entry
`(i,j)` equal to `Σ_{k<M} A[i][k]*B[k][j]` for all N, M, P including
`P ≠ M`.  The code (Matrix.hpp:732-735) runs the middle loop over `M`
and the inner loop over `P`, so at `N=1, M=2, P=1` with `A = [1 2]`,
`B = [3 4]ᵀ` it writes `res.m[1]` in a 1-element result array —
an out-of-bounds access (`none`) — while the documented sum is `[11]`.
At a square instantiation (`P = M`) the same loops do compute the
documented sums. -/
theorem matmul_inner_dimension_bug :
    mulCodeF 1 2 1 [1, 2] [3, 4] = none ∧
      mulSpecF 1 2 1 [1, 2] [3, 4] = [11] ∧
      mulCodeF 2 2 2 [1, 2, 3, 4] [5, 6, 7, 8] = some [19, 22, 43, 50] ∧
      mulSpecF 2 2 2 [1, 2, 3, 4] [5, 6, 7, 8] = [19, 22, 43, 50] :=
  ⟨by decide, by decide, by decide, by decide⟩

/-- C3: for every square matrix handled by `Matrix_Inverse<T,N,N>`
(`N ≥ 2`), `inverse` hits the `"Matrix is singular."` assertion exactly
when the determinant — computed as the first row of `m` dotted with the
first column of the adjugate — is exactly zero, and otherwise returns
`adjugate / determinant`; concretely, the inverse of `{{2,3},{2,2}}` is
`{{-1, 3/2},{1,-1}}`. -/
theorem inverse_singular_asserts :
    (∀ (n : ℕ) (A : Matrix (Fin (n + 2)) (Fin (n + 2)) ℚ),
        (invC A = none ↔ detViaAdj A = 0) ∧
        (detViaAdj A ≠ 0 →
          invC A = some (matScalarDiv (adjC A) (detViaAdj A)))) ∧
      invC !![(2 : ℚ), 3; 2, 2] = some !![-1, 3 / 2; 1, -1] := by
  refine ⟨fun n A => ⟨?_, fun h => by rw [invC, if_pos h]⟩, invC_ex⟩
  unfold invC
  split
  · simp_all
  · simp_all

/-- C3 witness: the general part applied to `{{2,3},{2,2}}`, whose
`inverse`-determinant `-2` is nonzero. -/
theorem inverse_singular_asserts_witness :
    detViaAdj !![(2 : ℚ), 3; 2, 2] ≠ 0 ∧
      invC !![(2 : ℚ), 3; 2, 2] =
        some (matScalarDiv (adjC !![(2 : ℚ), 3; 2, 2])
          (detViaAdj !![(2 : ℚ), 3; 2, 2])) :=
  ⟨by rw [detViaAdj_ex]; norm_num,
   (inverse_singular_asserts.1 0 !![(2 : ℚ), 3; 2, 2]).2
     (by rw [detViaAdj_ex]; norm_num)⟩

/-- C4: for every square matrix (of the sizes handled by
`Matrix_Inverse<T,N,N>`, `N ≥ 2`) with nonzero determinant, the code
product of the matrix with its code inverse is the code identity matrix,
exactly, over exact field arithmetic. -/
theorem mul_inverse_is_identity :
    ∀ (n : ℕ) (A : Matrix (Fin (n + 2)) (Fin (n + 2)) ℚ),
      detC A ≠ 0 → ∀ B, invC A = some B → mulSq A B = diagC (n + 2) 1 := by
  intro n A hdet B hB
  have hdet2 : detViaAdj A ≠ 0 := by rwa [detViaAdj_eq_detC]
  have hB2 : B = matScalarDiv (adjC A) (detViaAdj A) := by
    rw [invC, if_pos hdet2] at hB
    exact (Option.some_inj.mp hB).symm
  have hdm : A.det ≠ 0 := by rwa [detC_eq_det] at hdet
  rw [mulSq_eq_mul, diagC_one, hB2, matScalarDiv, if_pos hdet2]
  have hsc : (Matrix.of fun i j => adjC A i j * (detViaAdj A)⁻¹) =
      (detViaAdj A)⁻¹ • Matrix.adjugate A := by
    ext i j
    rw [adjC_eq_adjugate]
    simp [Matrix.smul_apply, mul_comm]
  rw [hsc, Matrix.mul_smul, Matrix.mul_adjugate, detViaAdj_eq_detC, detC_eq_det,
    smul_smul, inv_mul_cancel₀ hdm, one_smul]

/-- C4 witness: `{{2,3},{2,2}}` times its computed inverse is the
identity. -/
theorem mul_inverse_is_identity_witness :
    detC !![(2 : ℚ), 3; 2, 2] ≠ 0 ∧
      invC !![(2 : ℚ), 3; 2, 2] = some !![-1, 3 / 2; 1, -1] ∧
      mulSq !![(2 : ℚ), 3; 2, 2] !![-1, 3 / 2; 1, -1] = diagC 2 1 :=
  ⟨by rw [← detViaAdj_eq_detC, detViaAdj_ex]; norm_num, invC_ex,
   mul_inverse_is_identity 0 !![(2 : ℚ), 3; 2, 2]
     (by rw [← detViaAdj_eq_detC, detViaAdj_ex]; norm_num)
     !![-1, 3 / 2; 1, -1] invC_ex⟩

/-- C5 counterexample: the claim says Matrix scalar division by an exact
zero triggers the debug assertion and is never silently remapped to a
defined result.  But `Matrix<T,N,M>::operator/` contains no assertion:
dividing `{{1,2},{3,4}}` by `0` returns the default-constructed all-zero
matrix, and `operator/=` by `0` leaves the matrix unchanged — both are
defined results. -/
theorem matrix_div_zero_defined :
    matScalarDiv !![(1 : ℚ), 2; 3, 4] 0 = 0 ∧
      matScalarDivAssign !![(1 : ℚ), 2; 3, 4] 0 = !![(1 : ℚ), 2; 3, 4] :=
  ⟨by simp [matScalarDiv], by simp [matScalarDivAssign]⟩

/-- C5 (amended): scalar division by an exact zero triggers the debug
assertion for Vector (`operator/`, `operator/=`) and Quaternion
(`operator/`, `operator/=`), and only for zero; Matrix `operator/` and
`operator/=` instead test `s != 0` themselves and, on zero, silently
return the all-zero matrix resp. leave the matrix unchanged, without any
assertion. -/
theorem scalar_div_zero_amended :
    ∀ (n m : ℕ) (v : Fin n → ℚ) (q : QuatQ) (A : Matrix (Fin n) (Fin m) ℚ)
      (s : ℚ),
      (vecScalarDiv v s = none ↔ s = 0) ∧
      (vecScalarDivAssign v s = none ↔ s = 0) ∧
      (quatScalarDiv q s = none ↔ s = 0) ∧
      (quatScalarDivAssign q s = none ↔ s = 0) ∧
      (s = 0 → matScalarDiv A s = 0 ∧ matScalarDivAssign A s = A) := by
  intro n m v q A s
  refine ⟨?_, ?_, ?_, ?_, fun h => ⟨?_, ?_⟩⟩ <;>
    simp [vecScalarDiv, vecScalarDivAssign, quatScalarDiv, quatScalarDivAssign,
      matScalarDiv, matScalarDivAssign] <;>
    simp [*]

/-- C5 witness: the amended statement applied at `s = 0` on a concrete
1×1 matrix. -/
theorem scalar_div_zero_amended_witness :
    matScalarDiv !![(5 : ℚ)] 0 = 0 ∧ matScalarDivAssign !![(5 : ℚ)] 0 = !![(5 : ℚ)] :=
  (scalar_div_zero_amended 1 1 ![0] ⟨1, 0, 0, 0⟩ !![(5 : ℚ)] 0).2.2.2.2 rfl

/-- C8: assigning a shorter vector (`M < N`) overwrites only the first
`M` components and keeps the old values above index `M`, while the
converting constructor from the same shorter vector leaves those upper
components zero. -/
theorem vector_assign_keeps_tail :
    ∀ (N M : ℕ) (v : Fin N → ℚ) (u : Fin M → ℚ), M < N →
      ∀ i : Fin N,
        (∀ h : (i : ℕ) < M, vecAssign v u i = u ⟨i, h⟩) ∧
        (M ≤ (i : ℕ) → vecAssign v u i = v i ∧ vecFromSmaller N u i = 0) := by
  intro N M v u hMN i
  have hmin : min N M = M := Nat.min_eq_right hMN.le
  constructor
  · intro h
    rw [vecAssign, dif_pos (by omega)]
  · intro h
    constructor
    · rw [vecAssign, dif_neg (by omega)]
    · rw [vecFromSmaller, dif_neg (by omega)]

/-- C8 witness: the theorem at `N = 3`, `M = 2`,
`v = (10, 20, 30)`, `u = (1, 2)`, index `2`. -/
theorem vector_assign_keeps_tail_witness :
    vecAssign ![(10 : ℚ), 20, 30] ![1, 2] 2 = ![(10 : ℚ), 20, 30] 2 ∧
      vecFromSmaller 3 ![(1 : ℚ), 2] 2 = 0 :=
  (vector_assign_keeps_tail 3 2 ![10, 20, 30] ![1, 2] (by norm_num) 2).2
    (by norm_num)

/-- The translation matrix of the zero vector is the identity. -/
lemma translateM_zero : translateM ⟨0, 0, 0⟩ = 1 := by
  ext i j
  fin_cases i <;> fin_cases j <;>
    norm_num [translateM, Matrix.one_apply, Fin.ext_iff, Matrix.vecHead,
      Matrix.vecTail]

/-- The rotation matrix of the identity quaternion is the identity. -/
lemma toMat4Q_id : toMat4Q idQuatQ = 1 := by
  ext i j
  fin_cases i <;> fin_cases j <;>
    norm_num [toMat4Q, idQuatQ, Matrix.one_apply, Fin.ext_iff, Matrix.vecHead,
      Matrix.vecTail]

/-- C1: the claim (and the spec invariant) says the cached matrix equals
the composite of the four logical fields exactly when the dirty flag is
clear, for every `Transform` including one freshly constructed with
arbitrary arguments.  The constructor (Transform.hpp:47-55) initialises
the cache to `IDENTITY` with `isDirty = false` for every argument value,
so constructing with `scale = (2,2,2)` (all other arguments default)
yields a clear flag with a stale cache: `getMatrix` returns the identity
while the composite is `diag(2,2,2,1)`.  The setter/getter halves of the
claim do hold: every setter sets the flag, and `getMatrix` on a dirty
transform rebuilds the composite and clears the flag. -/
theorem transform_ctor_breaks_cache_invariant :
    (mkTransform ⟨2, 2, 2⟩ ⟨0, 0, 0⟩ ⟨0, 0, 0⟩ idQuatQ).isDirty = false ∧
      (mkTransform ⟨2, 2, 2⟩ ⟨0, 0, 0⟩ ⟨0, 0, 0⟩ idQuatQ).matrix ≠
        compositeM (mkTransform ⟨2, 2, 2⟩ ⟨0, 0, 0⟩ ⟨0, 0, 0⟩ idQuatQ) ∧
      (getMatrixT (mkTransform ⟨2, 2, 2⟩ ⟨0, 0, 0⟩ ⟨0, 0, 0⟩ idQuatQ)).1 ≠
        compositeM (mkTransform ⟨2, 2, 2⟩ ⟨0, 0, 0⟩ ⟨0, 0, 0⟩ idQuatQ) ∧
      (∀ tr s, (setScale tr s).isDirty = true) ∧
      (∀ tr t, (setTranslate tr t).isDirty = true) ∧
      (∀ tr ro, (setRotationOrigin tr ro).isDirty = true) ∧
      (∀ tr q, (setRotation tr q).isDirty = true) ∧
      (∀ tr s,
        getMatrixT (setScale tr s) =
          (compositeM (setScale tr s), rebuildT (setScale tr s)) ∧
        (rebuildT (setScale tr s)).isDirty = false) := by
  have hcomp :
      compositeM (mkTransform ⟨2, 2, 2⟩ ⟨0, 0, 0⟩ ⟨0, 0, 0⟩ idQuatQ) =
        scaleM ⟨2, 2, 2⟩ := by
    show compositeM ⟨⟨2, 2, 2⟩, ⟨0, 0, 0⟩, ⟨0, 0, 0⟩, idQuatQ, diagC 4 1, false⟩ = _
    rw [compositeM]
    simp only [mulSq_eq_mul, negV3]
    norm_num
    rw [translateM_zero, toMat4Q_id]
    simp
  have hne : diagC 4 1 ≠ scaleM ⟨2, 2, 2⟩ := by
    intro h
    have h2 := congrFun (congrFun h 0) 0
    simp [diagC, scaleM] at h2
  refine ⟨rfl, ?_, ?_, fun _ _ => rfl, fun _ _ => rfl, fun _ _ => rfl,
    fun _ _ => rfl, fun tr s => ⟨rfl, rfl⟩⟩
  · rw [hcomp]
    exact hne
  · rw [hcomp]
    show diagC 4 1 ≠ _
    exact hne

/-! ## Helper lemmas for the real-valued section -/

lemma EPS_pos : (0 : ℝ) < EPS := by norm_num [EPS]

lemma EPS_lt_one : EPS < 1 := by norm_num [EPS]

/-- On `(-1, 1)` the sine of the arccosine is positive. -/
lemma sin_arccos_pos {c : ℝ} (h1 : -1 < c) (h2 : c < 1) :
    0 < Real.sin (Real.arccos c) := by
  rw [Real.sin_arccos]
  apply Real.sqrt_pos.mpr
  nlinarith

/-- Evaluating the slerp trig formula at `t = 0`: the second weight is
`sin 0 = 0` and the first cancels against the division. -/
lemma trig_eval_zero (q0 q : QuatR) (a : ℝ) (hs : Real.sin a ≠ 0) :
    quatDivR (addQ (smulQ q0 (Real.sin ((1 - 0) * a))) (smulQ q (Real.sin (0 * a))))
      (Real.sin a) = some q0 := by
  rw [quatDivR, if_neg hs]
  congr 1
  cases q0
  cases q
  simp [addQ, smulQ]
  refine ⟨?_, ?_, ?_, ?_⟩ <;> field_simp

/-- Evaluating the slerp trig formula at `t = 1`: the first weight is
`sin 0 = 0` and the second cancels against the division. -/
lemma trig_eval_one (q0 q : QuatR) (a : ℝ) (hs : Real.sin a ≠ 0) :
    quatDivR (addQ (smulQ q0 (Real.sin ((1 - 1) * a))) (smulQ q (Real.sin (1 * a))))
      (Real.sin a) = some q := by
  rw [quatDivR, if_neg hs]
  congr 1
  cases q0
  cases q
  simp [addQ, smulQ]
  refine ⟨?_, ?_, ?_, ?_⟩ <;> field_simp

lemma lerpVal_zero (q0 q1 : QuatR) : lerpVal q0 q1 0 = q0 := by
  cases q0; cases q1; simp [lerpVal, addQ, smulQ]

lemma lerpVal_one (q0 q1 : QuatR) : lerpVal q0 q1 1 = q1 := by
  cases q0; cases q1; simp [lerpVal, addQ, smulQ]

/-- `slerp` at `t = 0` returns `q0` on every branch, given
`dot(q0, q1) > -1` (at `dot ≤ -1` the trig branch divides by
`sin(arccos(-dot)) = 0`, firing the division assertion). -/
lemma slerp_zero_of (q0 q1 : QuatR) (h : -1 < dotQ q0 q1) :
    slerpQ q0 q1 0 = some q0 := by
  by_cases hc : 1 - EPS < dotQ q0 q1
  · simp only [slerpQ]
    rw [if_pos hc, lerpQ, if_pos le_rfl, if_pos zero_le_one, lerpVal_zero]
  · simp only [slerpQ]
    rw [if_neg hc]
    by_cases hneg : dotQ q0 q1 < 0
    · rw [if_pos hneg, if_pos hneg]
      exact trig_eval_zero _ _ _
        (sin_arccos_pos (by linarith) (by linarith)).ne'
    · rw [if_neg hneg, if_neg hneg]
      push_neg at hc hneg
      exact trig_eval_zero _ _ _
        (sin_arccos_pos (by linarith) (by linarith [EPS_pos])).ne'

/-- `slerp` at `t = 1` returns `q1` when `dot(q0, q1) ≥ 0` (no
shortest-path negation happens). -/
lemma slerp_one_of (q0 q1 : QuatR) (h : 0 ≤ dotQ q0 q1) :
    slerpQ q0 q1 1 = some q1 := by
  by_cases hc : 1 - EPS < dotQ q0 q1
  · simp only [slerpQ]
    rw [if_pos hc, lerpQ, if_pos zero_le_one, if_pos le_rfl, lerpVal_one]
  · simp only [slerpQ]
    rw [if_neg hc]
    have hneg : ¬ dotQ q0 q1 < 0 := not_lt.mpr h
    rw [if_neg hneg, if_neg hneg]
    push_neg at hc
    exact trig_eval_one _ _ _
      (sin_arccos_pos (by linarith) (by linarith [EPS_pos])).ne'

/-- `slerp` at `t = 1` returns the source-negated (`negQ`, i.e.
vector-part-negated) second operand when `-1 < dot(q0, q1) < 0`. -/
lemma slerp_one_neg_of (q0 q1 : QuatR) (h1 : -1 < dotQ q0 q1)
    (h2 : dotQ q0 q1 < 0) : slerpQ q0 q1 1 = some (negQ q1) := by
  have hc : ¬ 1 - EPS < dotQ q0 q1 := by
    push_neg
    linarith [EPS_lt_one]
  simp only [slerpQ]
  rw [if_neg hc, if_pos h2, if_pos h2]
  exact trig_eval_one _ _ _
    (sin_arccos_pos (by linarith) (by linarith)).ne'

/-! ## Claim theorems over ℝ -/

/-- C7: `normalize` returns `v` divided component-wise by its length when
the length is strictly positive, returns `v` itself unchanged when the
length is exactly zero, and never fires an assertion (`isSome`) — the
division it performs is guarded by `l > 0`. -/
theorem normalize_zero_length_fallback :
    ∀ (n : ℕ) (v : Fin n → ℝ),
      (0 < lengthR v → normalizeV v = some fun i => v i / lengthR v) ∧
      (lengthR v = 0 → normalizeV v = some v) ∧
      (normalizeV v).isSome = true := by
  intro n v
  refine ⟨fun h => ?_, fun h0 => ?_, ?_⟩
  · rw [normalizeV, if_pos h, vecDivR, if_neg (ne_of_gt h)]
  · rw [normalizeV, if_neg (by rw [h0]; exact lt_irrefl 0)]
  · by_cases h : 0 < lengthR v
    · simp [normalizeV, h, vecDivR, ne_of_gt h]
    · simp [normalizeV, h]

/-- C7 witness: the zero vector has length zero and is returned
unchanged, with no assertion. -/
theorem normalize_zero_length_fallback_witness :
    lengthR (fun _ : Fin 3 => (0 : ℝ)) = 0 ∧
      normalizeV (fun _ : Fin 3 => (0 : ℝ)) = some fun _ : Fin 3 => (0 : ℝ) := by
  have h0 : lengthR (fun _ : Fin 3 => (0 : ℝ)) = 0 := by
    simp [lengthR, dotR]
  exact ⟨h0, (normalize_zero_length_fallback 3 _).2.1 h0⟩

/-- C9: quaternion `exp` is determined by the vector part alone — the
scalar part `w` never enters the computation.  Below `EPSILON` vector
length the result is the identity quaternion regardless of `w`;
otherwise it is `(cos a, sin(a)·(x,y,z)/a)` with `a` the vector length. -/
theorem exp_ignores_scalar_part :
    ∀ (w w2 x y z : ℝ),
      expQ ⟨w, x, y, z⟩ = expQ ⟨w2, x, y, z⟩ ∧
      (lengthR ![x, y, z] < EPS → expQ ⟨w, x, y, z⟩ = ⟨1, 0, 0, 0⟩) ∧
      (¬ lengthR ![x, y, z] < EPS →
        expQ ⟨w, x, y, z⟩ =
          ⟨Real.cos (lengthR ![x, y, z]),
           Real.sin (lengthR ![x, y, z]) * (x / lengthR ![x, y, z]),
           Real.sin (lengthR ![x, y, z]) * (y / lengthR ![x, y, z]),
           Real.sin (lengthR ![x, y, z]) * (z / lengthR ![x, y, z])⟩) := by
  intro w w2 x y z
  refine ⟨rfl, fun h => ?_, fun h => ?_⟩
  · simp only [expQ]
    rw [if_pos h]
  · simp only [expQ]
    rw [if_neg h]

/-- C9 witness: two quaternions differing only in `w`, with zero vector
part (length `0 < EPSILON`), both map to the identity. -/
theorem exp_ignores_scalar_part_witness :
    expQ ⟨5, 0, 0, 0⟩ = expQ ⟨7, 0, 0, 0⟩ ∧ expQ ⟨5, 0, 0, 0⟩ = ⟨1, 0, 0, 0⟩ := by
  have h0 : lengthR ![(0 : ℝ), 0, 0] < EPS := by
    have : lengthR ![(0 : ℝ), 0, 0] = 0 := by
      simp [lengthR, dotR, Fin.sum_univ_three]
    rw [this]
    exact EPS_pos
  exact ⟨(exp_ignores_scalar_part 5 7 0 0 0).1,
    (exp_ignores_scalar_part 5 7 0 0 0).2.1 h0⟩

/-- C10: `lerp`'s two assertions hold exactly on `0 ≤ t ≤ 1` (the result
is `some` iff the precondition holds), and the near-zero-angle branch of
`slerp` — taken when `dot(q0,q1) > 1 - EPSILON` — delegates to `lerp`
with the same `t`, so under the precondition it returns the lerp value
with no assertion firing. -/
theorem lerp_assertions_define_precondition :
    ∀ (q0 q1 : QuatR) (t : ℝ),
      ((lerpQ q0 q1 t).isSome = true ↔ 0 ≤ t ∧ t ≤ 1) ∧
      (0 ≤ t → t ≤ 1 → 1 - EPS < dotQ q0 q1 →
        slerpQ q0 q1 t = some (lerpVal q0 q1 t)) := by
  intro q0 q1 t
  constructor
  · by_cases h1 : 0 ≤ t <;> by_cases h2 : t ≤ 1 <;> simp [lerpQ, h1, h2]
  · intro h1 h2 h3
    simp only [slerpQ]
    rw [if_pos h3, lerpQ, if_pos h1, if_pos h2]

/-- C10 witness: at `t = 1/2` between two identity quaternions the
assertions pass and the near-zero-angle branch returns the lerp value. -/
theorem lerp_assertions_define_precondition_witness :
    (lerpQ ⟨1, 0, 0, 0⟩ ⟨1, 0, 0, 0⟩ (1 / 2)).isSome = true ∧
      slerpQ ⟨1, 0, 0, 0⟩ ⟨1, 0, 0, 0⟩ (1 / 2) =
        some (lerpVal ⟨1, 0, 0, 0⟩ ⟨1, 0, 0, 0⟩ (1 / 2)) :=
  ⟨(lerp_assertions_define_precondition ⟨1, 0, 0, 0⟩ ⟨1, 0, 0, 0⟩ (1 / 2)).1.mpr
      ⟨by norm_num, by norm_num⟩,
   (lerp_assertions_define_precondition ⟨1, 0, 0, 0⟩ ⟨1, 0, 0, 0⟩ (1 / 2)).2
      (by norm_num) (by norm_num) (by norm_num [dotQ, EPS])⟩

/-- C6 counterexample: with `q0 = (1,0,0,0)` and `q1 = (-1/2, 1/2, 0, 0)`
the dot product is `-1/2 < 0`, the shortest-path branch replaces `q1` by
the source's unary minus of `q1`, and `slerp(q0, q1, 1)` is
`(-1/2, -1/2, 0, 0) ≠ q1` — the claim that `slerp(q0,q1,1) = q1` with no
restriction on the sign of the dot product is false. -/
theorem slerp_one_not_q1_counterexample :
    slerpQ ⟨1, 0, 0, 0⟩ ⟨-(1 / 2), 1 / 2, 0, 0⟩ 1 ≠
      some ⟨-(1 / 2), 1 / 2, 0, 0⟩ := by
  have hd : dotQ ⟨1, 0, 0, 0⟩ ⟨-(1 / 2), 1 / 2, 0, 0⟩ = -(1 / 2) := by
    norm_num [dotQ]
  rw [slerp_one_neg_of _ _ (by rw [hd]; norm_num) (by rw [hd]; norm_num)]
  simp only [negQ]
  intro h
  have hx := congrArg QuatR.x (Option.some_inj.mp h)
  norm_num at hx

/-- C6 (amended): `slerp(q0,q1,0) = q0` holds on every branch whenever
`dot(q0,q1) > -1`, and `slerp(q0,q1,1) = q1` holds when
`dot(q0,q1) ≥ 0`; but when `-1 < dot(q0,q1) < 0` the shortest-path
branch yields `slerp(q0,q1,1) = (q1.w, -q1.x, -q1.y, -q1.z)` (the
source's unary minus negates only the vector part), which differs from
`q1` whenever the vector part is nonzero.  At `dot(q0,q1) ≤ -1` the trig
branch divides by `sin(arccos(-dot)) = 0` and the division assertion
fires. -/
theorem slerp_endpoints_amended :
    ∀ q0 q1 : QuatR,
      (-1 < dotQ q0 q1 → slerpQ q0 q1 0 = some q0) ∧
      (0 ≤ dotQ q0 q1 → slerpQ q0 q1 1 = some q1) ∧
      (-1 < dotQ q0 q1 → dotQ q0 q1 < 0 → slerpQ q0 q1 1 = some (negQ q1)) :=
  fun q0 q1 =>
    ⟨slerp_zero_of q0 q1, slerp_one_of q0 q1, slerp_one_neg_of q0 q1⟩

/-- C6 witness: between two identity quaternions (dot product `1`),
`slerp` at `t = 0` and `t = 1` returns the endpoints. -/
theorem slerp_endpoints_amended_witness :
    slerpQ ⟨1, 0, 0, 0⟩ ⟨1, 0, 0, 0⟩ 0 = some ⟨1, 0, 0, 0⟩ ∧
      slerpQ ⟨1, 0, 0, 0⟩ ⟨1, 0, 0, 0⟩ 1 = some ⟨1, 0, 0, 0⟩ :=
  ⟨(slerp_endpoints_amended ⟨1, 0, 0, 0⟩ ⟨1, 0, 0, 0⟩).1 (by norm_num [dotQ]),
   (slerp_endpoints_amended ⟨1, 0, 0, 0⟩ ⟨1, 0, 0, 0⟩).2.1 (by norm_num [dotQ])⟩

end FastMath
